import Mathlib

/-!
# Verification of the rail-network visualizer (src/main.py)

Shallow embedding of the rail-network animation script. Python floats are
modelled as rationals (`ℚ`), Python ints as `ℤ`, Python dicts as association
lists with last-write-wins insertion, and fallible Python operations
(`ZeroDivisionError`, `KeyError`, `IndexError`) as `Except` values.
The simulated clock is kept in hours since midnight (06:00 = `6`).
-/

namespace RailViz

/-- Errors the Python runtime can raise in the modelled fragment. -/
inductive PyErr where
  | zeroDivision : PyErr
  | keyError : String → PyErr
  | indexError : PyErr
deriving DecidableEq, Repr

/-- Python `int()` applied to a float: truncation toward zero. -/
def pyInt (q : ℚ) : ℤ := if q < 0 then ⌈q⌉ else ⌊q⌋

/-- Class `City` from src/main.py: a name and (longitude, latitude) coordinates. -/
structure City where
  name : String
  coordinates : ℚ × ℚ
deriving DecidableEq, Repr

/-- Method `City.normalize_coordinates` (src/main.py:22-37): linear map of the
bounding box `[min_x, max_x] × [min_y, max_y]` onto `[-1,1] × [-1,1]`. -/
def normalize_coordinates (c : City) (min_x max_x min_y max_y : ℚ) : ℚ × ℚ :=
  ((c.coordinates.1 - min_x) / (max_x - min_x) * 2 - 1,
   (c.coordinates.2 - min_y) / (max_y - min_y) * 2 - 1)

/-- Shortcut for `normalize_coordinates` with the default bounds
`min_x=8, max_x=13, min_y=54, max_y=58` (src/main.py:22). -/
def normalizeDefault (c : City) : ℚ × ℚ :=
  normalize_coordinates c 8 13 54 58

/-- Modelled from the spec: the inverse of the linear normalization map,
sending `[-1,1] × [-1,1]` back onto the bounding box. The source has no
such function; the spec's bijection property (§8) compares
`normalize_coordinates` against this inverse. -/
def denormalize (p : ℚ × ℚ) (min_x max_x min_y max_y : ℚ) : ℚ × ℚ :=
  (min_x + (p.1 + 1) / 2 * (max_x - min_x),
   min_y + (p.2 + 1) / 2 * (max_y - min_y))

/-- Class `Connection` from src/main.py: start city name, end city name, duration
in hours. -/
structure Connection where
  start_city : String
  end_city : String
  duration : ℚ
deriving DecidableEq, Repr

/-- Insertion into a Python dict modelled as an association list:
overwrite in place if the key exists, else append (insertion order kept). -/
def dictInsert {α : Type} : List (String × α) → String → α → List (String × α)
  | [], k, v => [(k, v)]
  | (k', v') :: rest, k, v =>
      if k' = k then (k, v) :: rest else (k', v') :: dictInsert rest k v

/-- Class `RailNetwork` from src/main.py: dict of cities keyed by name, and an
ordered list of connections. -/
structure RailNetwork where
  cities : List (String × City)
  connections : List Connection
deriving DecidableEq, Repr

/-- Method `RailNetwork.add_city` (src/main.py:68-75): insert/overwrite by name. -/
def add_city (net : RailNetwork) (c : City) : RailNetwork :=
  { net with cities := dictInsert net.cities c.name c }

/-- Method `RailNetwork.add_connection` (src/main.py:77-84): append. -/
def add_connection (net : RailNetwork) (c : Connection) : RailNetwork :=
  { net with connections := net.connections ++ [c] }

/-- The `networkx.Graph` as the source uses it: node list in insertion
order without duplicates, and edges as a map from unordered endpoint pairs
(`Sym2 String`) to weights, last write wins. -/
structure NXGraph where
  nodes : List String
  edges : List (Sym2 String × ℚ)
deriving DecidableEq

/-- The `networkx` `add_node` operation: no-op if already present, else append. -/
def add_node (g : NXGraph) (n : String) : NXGraph :=
  if n ∈ g.nodes then g else { g with nodes := g.nodes ++ [n] }

/-- The `networkx` edge-map insertion: overwrite the weight if the unordered
key is already present, else append. -/
def insertEdge : List (Sym2 String × ℚ) → Sym2 String → ℚ → List (Sym2 String × ℚ)
  | [], k, w => [(k, w)]
  | (k', w') :: rest, k, w =>
      if k' = k then (k, w) :: rest else (k', w') :: insertEdge rest k w

/-- The `networkx` `add_edge(u, v, weight=w)` operation: silently adds missing endpoint
nodes, then records the undirected edge. -/
def add_edge (g : NXGraph) (u v : String) (w : ℚ) : NXGraph :=
  let g1 := add_node (add_node g u) v
  { g1 with edges := insertEdge g1.edges (Sym2.mk (u, v)) w }

/-- Method `RailNetwork.build_graph` (src/main.py:86-93): add a node per city,
then an edge per connection with the duration as weight. -/
def build_graph (net : RailNetwork) : NXGraph :=
  let g0 := net.cities.foldl (fun g p => add_node g p.2.name) ⟨[], []⟩
  net.connections.foldl (fun g c => add_edge g c.start_city c.end_city c.duration) g0

/-- Method `RailNetwork.load_from_json` (src/main.py:95-109): add every city of
the description, then every connection, to an existing network. -/
def load_from_json (net : RailNetwork) (cities : List City)
    (conns : List Connection) : RailNetwork :=
  conns.foldl add_connection (cities.foldl add_city net)

/-- Method `RailNetworkVisualizer.calculate_frames_and_stops` (src/main.py:136-143):
total stop time is 20% of the summed durations, split evenly over the
connections; total frame count is `duration * 10`. When the connection list
is empty, `total_stop_time / len(...)` raises `ZeroDivisionError`. -/
def calculate_frames_and_stops (connections : List Connection) (duration : ℤ) :
    Except PyErr (List ℚ × ℤ) :=
  let total_travel_time := (connections.map Connection.duration).sum
  let total_stop_time := total_travel_time * (2 / 10 : ℚ)
  if connections.length = 0 then .error .zeroDivision
  else .ok (List.replicate connections.length
              (total_stop_time / (connections.length : ℚ)),
            duration * 10)

/-- The state of `RailNetworkVisualizer` relevant to the timeline
(src/main.py:115-134): the normalized position dict, the network's
connection list, the stop durations, the total frame count, and the
simulated clock (`current_time`, in hours since midnight). -/
structure RailNetworkVisualizer where
  pos : List (String × (ℚ × ℚ))
  connections : List Connection
  stop_durations : List ℚ
  total_frames : ℤ
  current_time : ℚ
deriving DecidableEq, Repr

/-- Constructor `RailNetworkVisualizer.__init__` (src/main.py:115-134): build the
normalized position dict with the default bounds, set the clock to 06:00,
and run `calculate_frames_and_stops`. -/
def mkVisualizer (net : RailNetwork) (duration : ℤ) :
    Except PyErr RailNetworkVisualizer :=
  match calculate_frames_and_stops net.connections duration with
  | .error e => .error e
  | .ok (stops, tot) =>
      .ok { pos := net.cities.map fun p => (p.2.name, normalizeDefault p.2)
          , connections := net.connections
          , stop_durations := stops
          , total_frames := tot
          , current_time := 6 }

/-- Python dict lookup `self.pos[name]`: `KeyError` when absent. -/
def lookupPos (pos : List (String × (ℚ × ℚ))) (n : String) :
    Except PyErr (ℚ × ℚ) :=
  match pos.lookup n with
  | some q => .ok q
  | none => .error (.keyError n)

/-- Python `stop_frames = int(self.stop_durations[idx] * 10)` (src/main.py:175). -/
def stopFramesOf (sd : ℚ) : ℤ := pyInt (sd * 10)

/-- Python `travel_frames = self.total_frames // len(connections)`
(src/main.py:174): Python floor division. -/
def travelFramesOf (total_frames : ℤ) (n : ℕ) : ℤ := Int.fdiv total_frames n

/-- The connection scan of `RailNetworkVisualizer.update`
(src/main.py:172-192). Walks the connections with their stop durations,
keeping the running `cumulative_frames`; returns the plotted marker
position (if any branch matched) and the increment added to
`current_time`, in hours. Indexing `stop_durations[idx]` past the end is
an `IndexError`; a missing city in the position dict is a `KeyError`. -/
def updateLoop (pos : List (String × (ℚ × ℚ))) (tf frame : ℤ) :
    List Connection → List ℚ → ℤ → Except PyErr (Option (ℚ × ℚ) × ℚ)
  | [], _, _ => .ok (none, 0)
  | _ :: _, [], _ => .error .indexError
  | c :: cs, sd :: sds, cum =>
      let sf := stopFramesOf sd
      if cum ≤ frame ∧ frame < cum + tf then
        match lookupPos pos c.start_city with
        | .error e => .error e
        | .ok (xs, ys) =>
          match lookupPos pos c.end_city with
          | .error e => .error e
          | .ok (xe, ye) =>
            let i : ℚ := ((frame - cum : ℤ) : ℚ)
            .ok (some (xs + (xe - xs) * i / (tf : ℚ),
                       ys + (ye - ys) * i / (tf : ℚ)),
                 c.duration * (1 / (tf : ℚ)))
      else if cum + tf ≤ frame ∧ frame < cum + tf + sf then
        match lookupPos pos c.end_city with
        | .error e => .error e
        | .ok p => .ok (some p, sd / 10 / 60)
      else
        updateLoop pos tf frame cs sds (cum + tf + sf)

/-- The per-connection travel frame count a visualizer state uses:
`travel_frames = self.total_frames // len(connections)` (src/main.py:174). -/
def travelFrames (v : RailNetworkVisualizer) : ℤ :=
  travelFramesOf v.total_frames v.connections.length

/-- Method `RailNetworkVisualizer.update` (src/main.py:161-194): run the scan
from `cumulative_frames = 0` and add the resulting increment to the
simulated clock. Returns the plotted marker position and the new state. -/
def update (v : RailNetworkVisualizer) (frame : ℤ) :
    Except PyErr (Option (ℚ × ℚ) × RailNetworkVisualizer) :=
  match updateLoop v.pos (travelFrames v) frame v.connections v.stop_durations 0 with
  | .error e => .error e
  | .ok (p, inc) => .ok (p, { v with current_time := v.current_time + inc })

/-- A sequence of `update` calls (as `FuncAnimation` performs), keeping
only the state. -/
def runFrames : RailNetworkVisualizer → List ℤ → Except PyErr RailNetworkVisualizer
  | v, [] => .ok v
  | v, f :: fs =>
      match update v f with
      | .error e => .error e
      | .ok (_, v') => runFrames v' fs

/-- The marker position `update` computes after a preceding sequence of
`update` calls: the observable for frame-independence. -/
def posAt (v : RailNetworkVisualizer) (fs : List ℤ) (f : ℤ) :
    Except PyErr (Option (ℚ × ℚ)) :=
  match runFrames v fs with
  | .error e => .error e
  | .ok w =>
      match update w f with
      | .error e => .error e
      | .ok (p, _) => .ok p

/-- The frame extent of the first `k` connection blocks: each block
contributes `travel_frames + stop_frames` (src/main.py:192). -/
def blockSum (tf : ℤ) : List ℚ → ℤ
  | [] => 0
  | sd :: sds => (tf + stopFramesOf sd) + blockSum tf sds

/-- Value of `cumulative_frames` just before the `k`-th connection's block. -/
def cumulativeFrames (v : RailNetworkVisualizer) (k : ℕ) : ℤ :=
  blockSum (travelFrames v) (v.stop_durations.take k)

/-! Concrete fixtures used to instantiate the theorems: a two-city
network whose cities sit at the corners of the default bounding box. -/

/-- Fixture: city at the minimum corner of the default bounding box. -/
def cityA : City := ⟨"A", (8, 54)⟩

/-- Fixture: city at the maximum corner of the default bounding box. -/
def cityB : City := ⟨"B", (13, 58)⟩

/-- Fixture: two cities, one 1-hour connection. -/
def netAB : RailNetwork := ⟨[("A", cityA), ("B", cityB)], [⟨"A", "B", 1⟩]⟩

/-- Fixture: the visualizer state `mkVisualizer netAB 1` produces. -/
def visAB : RailNetworkVisualizer :=
  ⟨[("A", (-1, -1)), ("B", (1, 1))], [⟨"A", "B", 1⟩], [1 / 5], 10, 6⟩

/-- Fixture: like `netAB` but with a 7-hour connection duration. -/
def netAB7 : RailNetwork := ⟨[("A", cityA), ("B", cityB)], [⟨"A", "B", 7⟩]⟩

/-- Fixture: the visualizer state `mkVisualizer netAB7 1` produces. -/
def visAB7 : RailNetworkVisualizer :=
  ⟨[("A", (-1, -1)), ("B", (1, 1))], [⟨"A", "B", 7⟩], [7 / 5], 10, 6⟩

/-- Fixture: a single connection of 1.3 hours (no cities needed). -/
def netC3 : RailNetwork := ⟨[], [⟨"A", "B", 13 / 10⟩]⟩

/-- Fixture: the visualizer state `mkVisualizer netC3 1` produces. -/
def visC3 : RailNetworkVisualizer :=
  ⟨[], [⟨"A", "B", 13 / 10⟩], [13 / 50], 10, 6⟩

/-! ### Basic lemmas about the embedding -/

theorem pyInt_nonneg {q : ℚ} (h : 0 ≤ q) : 0 ≤ pyInt q := by
  unfold pyInt
  rw [if_neg (not_lt.mpr h)]
  exact Int.floor_nonneg.mpr h

theorem stopFramesOf_nonneg {sd : ℚ} (h : 0 ≤ sd) : 0 ≤ stopFramesOf sd :=
  pyInt_nonneg (by positivity)

theorem blockSum_nonneg {tf : ℤ} (htf : 0 ≤ tf) :
    ∀ {l : List ℚ}, (∀ s ∈ l, 0 ≤ s) → 0 ≤ blockSum tf l := by
  intro l
  induction l with
  | nil => intro; simp [blockSum]
  | cons sd sds ih =>
      intro hl
      have h1 : 0 ≤ stopFramesOf sd := stopFramesOf_nonneg (hl sd (by simp))
      have h2 : 0 ≤ blockSum tf sds := ih fun s hs => hl s (by simp [hs])
      unfold blockSum
      omega

/-- Unpacking a successful `mkVisualizer` run. -/
theorem mkVisualizer_ok {net : RailNetwork} {D : ℤ} {v : RailNetworkVisualizer}
    (h : mkVisualizer net D = .ok v) :
    1 ≤ net.connections.length ∧
    v.pos = net.cities.map (fun p => (p.2.name, normalizeDefault p.2)) ∧
    v.connections = net.connections ∧
    v.stop_durations = List.replicate net.connections.length
      ((net.connections.map Connection.duration).sum * (2 / 10 : ℚ) /
        (net.connections.length : ℚ)) ∧
    v.total_frames = D * 10 ∧
    v.current_time = 6 := by
  unfold mkVisualizer calculate_frames_and_stops at h
  by_cases hn : net.connections.length = 0
  · simp [hn] at h
  · simp only [hn, if_neg, if_false, ite_false] at h
    simp only [Except.ok.injEq] at h
    subst h
    exact ⟨Nat.one_le_iff_ne_zero.mpr hn, rfl, rfl, rfl, rfl, rfl⟩

/-- A successful `update` is the connection scan plus a clock increment. -/
theorem update_ok {v : RailNetworkVisualizer} {f : ℤ}
    {p : Option (ℚ × ℚ)} {v' : RailNetworkVisualizer}
    (h : update v f = .ok (p, v')) :
    ∃ inc, updateLoop v.pos (travelFrames v) f v.connections v.stop_durations 0
        = .ok (p, inc) ∧
      v' = { v with current_time := v.current_time + inc } := by
  unfold update at h
  rcases hu : updateLoop v.pos (travelFrames v) f v.connections v.stop_durations 0 with e | pi
  · rw [hu] at h
    exact absurd h (by simp)
  · obtain ⟨p0, inc⟩ := pi
    rw [hu] at h
    simp only [Except.ok.injEq, Prod.mk.injEq] at h
    exact ⟨inc, by rw [h.1], h.2.symm⟩

/-- Conversely, a scan result determines `update`. -/
theorem update_eq_of_loop {v : RailNetworkVisualizer} {f : ℤ}
    {p : Option (ℚ × ℚ)} {inc : ℚ}
    (hu : updateLoop v.pos (travelFrames v) f v.connections v.stop_durations 0
        = .ok (p, inc)) :
    update v f = .ok (p, { v with current_time := v.current_time + inc }) := by
  unfold update
  rw [hu]

/-- Running `update` only ever mutates the simulated clock. -/
theorem update_fields {v : RailNetworkVisualizer} {f : ℤ}
    {p : Option (ℚ × ℚ)} {v' : RailNetworkVisualizer}
    (h : update v f = .ok (p, v')) :
    v'.pos = v.pos ∧ v'.connections = v.connections ∧
    v'.stop_durations = v.stop_durations ∧ v'.total_frames = v.total_frames := by
  obtain ⟨inc, _, hv⟩ := update_ok h
  subst hv
  exact ⟨rfl, rfl, rfl, rfl⟩

/-- A run of `update` calls only ever mutates the simulated clock. -/
theorem runFrames_fields :
    ∀ {fs : List ℤ} {v w : RailNetworkVisualizer}, runFrames v fs = .ok w →
      w.pos = v.pos ∧ w.connections = v.connections ∧
      w.stop_durations = v.stop_durations ∧ w.total_frames = v.total_frames := by
  intro fs
  induction fs with
  | nil =>
      intro v w h
      simp only [runFrames, Except.ok.injEq] at h
      subst h; exact ⟨rfl, rfl, rfl, rfl⟩
  | cons f fs ih =>
      intro v w h
      unfold runFrames at h
      rcases hu : update v f with e | pv
      · rw [hu] at h; exact absurd h (by simp)
      · obtain ⟨p, v1⟩ := pv
        rw [hu] at h
        obtain ⟨h1, h2, h3, h4⟩ := ih h
        obtain ⟨g1, g2, g3, g4⟩ := update_fields hu
        exact ⟨h1.trans g1, h2.trans g2, h3.trans g3, h4.trans g4⟩

/-! ### The connection scan -/

/-- Past the cumulative extent of all blocks, the scan matches nothing
and produces no position and a zero clock increment. -/
theorem updateLoop_out_of_range (pos : List (String × (ℚ × ℚ))) {tf : ℤ}
    (htf : 0 ≤ tf) :
    ∀ (conns : List Connection) (stops : List ℚ) (cum0 f : ℤ),
      conns.length = stops.length → (∀ s ∈ stops, 0 ≤ s) →
      cum0 + blockSum tf stops ≤ f →
      updateLoop pos tf f conns stops cum0 = .ok (none, 0) := by
  intro conns
  induction conns with
  | nil => intro stops cum0 f _ _ _; rfl
  | cons c cs ih =>
      intro stops cum0 f hlen hnn hle
      cases stops with
      | nil => simp at hlen
      | cons sd sds =>
          have hsf : 0 ≤ stopFramesOf sd := stopFramesOf_nonneg (hnn sd (by simp))
          have hbs : 0 ≤ blockSum tf sds :=
            blockSum_nonneg htf fun s hs => hnn s (by simp [hs])
          have h1 : cum0 + tf + stopFramesOf sd ≤ f := by
            unfold blockSum at hle; omega
          rw [updateLoop]
          rw [if_neg (by rintro ⟨-, h2⟩; omega), if_neg (by rintro ⟨-, h2⟩; omega)]
          exact ih sds (cum0 + tf + stopFramesOf sd) f (by simpa using hlen)
            (fun s hs => hnn s (by simp [hs])) (by unfold blockSum at hle; omega)

/-- A frame inside the travel sub-range of the `k`-th block makes the scan
stop at the `k`-th connection, interpolate between its endpoints, and
report the clock increment `duration * (1/travel_frames)`. -/
theorem updateLoop_travel (pos : List (String × (ℚ × ℚ))) {tf : ℤ}
    (htf : 0 ≤ tf) :
    ∀ (conns : List Connection) (stops : List ℚ) (k : ℕ) (cum0 f : ℤ)
      (ck : Connection) (ps pe : ℚ × ℚ),
      conns.length = stops.length → (∀ s ∈ stops, 0 ≤ s) →
      conns[k]? = some ck →
      lookupPos pos ck.start_city = .ok ps →
      lookupPos pos ck.end_city = .ok pe →
      cum0 + blockSum tf (stops.take k) ≤ f →
      f < cum0 + blockSum tf (stops.take k) + tf →
      updateLoop pos tf f conns stops cum0 = .ok
        (some (ps.1 + (pe.1 - ps.1) *
                 ((f - (cum0 + blockSum tf (stops.take k)) : ℤ) : ℚ) / (tf : ℚ),
               ps.2 + (pe.2 - ps.2) *
                 ((f - (cum0 + blockSum tf (stops.take k)) : ℤ) : ℚ) / (tf : ℚ)),
         ck.duration * (1 / (tf : ℚ))) := by
  intro conns
  induction conns with
  | nil => intro stops k cum0 f ck ps pe _ _ hk; simp at hk
  | cons c cs ih =>
      intro stops k cum0 f ck ps pe hlen hnn hk hs he hlo hhi
      cases stops with
      | nil => simp at hlen
      | cons sd sds =>
          cases k with
          | zero =>
              simp only [List.getElem?_cons_zero, Option.some.injEq] at hk
              subst hk
              simp only [List.take_zero, blockSum, add_zero] at hlo hhi
              rw [updateLoop, if_pos ⟨hlo, hhi⟩, hs, he]
              simp [blockSum]
          | succ k =>
              simp only [List.getElem?_cons_succ] at hk
              have hsf : 0 ≤ stopFramesOf sd := stopFramesOf_nonneg (hnn sd (by simp))
              have hbs : 0 ≤ blockSum tf (sds.take k) :=
                blockSum_nonneg htf fun s hs =>
                  hnn s (by simp [List.mem_of_mem_take hs])
              have hstep : blockSum tf ((sd :: sds).take (k + 1))
                  = (tf + stopFramesOf sd) + blockSum tf (sds.take k) := by
                simp [List.take_succ_cons, blockSum]
              rw [hstep] at hlo hhi
              rw [updateLoop]
              rw [if_neg (by rintro ⟨-, h2⟩; omega), if_neg (by rintro ⟨-, h2⟩; omega)]
              have := ih sds k (cum0 + (tf + stopFramesOf sd)) f ck ps pe
                (by simpa using hlen) (fun s hs => hnn s (by simp [hs])) hk hs he
                (by omega) (by omega)
              rw [show cum0 + (tf + stopFramesOf sd) = cum0 + tf + stopFramesOf sd
                    from by ring] at this
              have harg : cum0 + tf + stopFramesOf sd + blockSum tf (sds.take k)
                  = cum0 + blockSum tf ((sd :: sds).take (k + 1)) := by
                rw [hstep]; ring
              rw [this, harg]

/-- Under nonnegative durations and stop durations, a successful scan
never decreases the clock. -/
theorem updateLoop_inc_nonneg (pos : List (String × (ℚ × ℚ))) (tf : ℤ) :
    ∀ (conns : List Connection) (stops : List ℚ) (cum0 f : ℤ)
      (p : Option (ℚ × ℚ)) (inc : ℚ),
      (∀ c ∈ conns, 0 ≤ c.duration) → (∀ s ∈ stops, 0 ≤ s) →
      updateLoop pos tf f conns stops cum0 = .ok (p, inc) → 0 ≤ inc := by
  intro conns
  induction conns with
  | nil =>
      intro stops cum0 f p inc _ _ h
      simp only [updateLoop, Except.ok.injEq, Prod.mk.injEq] at h
      rw [← h.2]
  | cons c cs ih =>
      intro stops cum0 f p inc hd hnn h
      cases stops with
      | nil => simp [updateLoop] at h
      | cons sd sds =>
          rw [updateLoop] at h
          by_cases h1 : cum0 ≤ f ∧ f < cum0 + tf
          · rw [if_pos h1] at h
            have htfpos : 0 < tf := by omega
            rcases hls : lookupPos pos c.start_city with e | qs
            · rw [hls] at h; exact absurd h (by simp)
            · rw [hls] at h
              obtain ⟨xs, ys⟩ := qs
              rcases hle : lookupPos pos c.end_city with e | qe
              · rw [hle] at h; exact absurd h (by simp)
              · rw [hle] at h
                obtain ⟨xe, ye⟩ := qe
                simp only [Except.ok.injEq, Prod.mk.injEq] at h
                rw [← h.2]
                have : (0 : ℚ) < (tf : ℚ) := by exact_mod_cast htfpos
                have hc : 0 ≤ c.duration := hd c (by simp)
                positivity
          · rw [if_neg h1] at h
            by_cases h2 : cum0 + tf ≤ f ∧ f < cum0 + tf + stopFramesOf sd
            · rw [if_pos h2] at h
              rcases hle : lookupPos pos c.end_city with e | qe
              · rw [hle] at h; exact absurd h (by simp)
              · rw [hle] at h
                simp only [Except.ok.injEq, Prod.mk.injEq] at h
                rw [← h.2]
                have hsd : 0 ≤ sd := hnn sd (by simp)
                positivity
            · rw [if_neg h2] at h
              exact ih sds (cum0 + tf + stopFramesOf sd) f p inc
                (fun x hx => hd x (by simp [hx])) (fun s hs => hnn s (by simp [hs])) h

/-- With every referenced city present in the position dict and enough
stop-duration entries, the scan cannot fail. -/
theorem updateLoop_total (pos : List (String × (ℚ × ℚ))) (tf : ℤ) :
    ∀ (conns : List Connection) (stops : List ℚ) (cum0 f : ℤ),
      conns.length ≤ stops.length →
      (∀ c ∈ conns, (pos.lookup c.start_city).isSome ∧
        (pos.lookup c.end_city).isSome) →
      ∃ p inc, updateLoop pos tf f conns stops cum0 = .ok (p, inc) := by
  intro conns
  induction conns with
  | nil => intro stops cum0 f _ _; exact ⟨none, 0, rfl⟩
  | cons c cs ih =>
      intro stops cum0 f hlen hp
      cases stops with
      | nil => simp at hlen
      | cons sd sds =>
          obtain ⟨hps, hpe⟩ := hp c (by simp)
          obtain ⟨qs, hqs⟩ := Option.isSome_iff_exists.mp hps
          obtain ⟨qe, hqe⟩ := Option.isSome_iff_exists.mp hpe
          rw [updateLoop]
          by_cases h1 : cum0 ≤ f ∧ f < cum0 + tf
          · rw [if_pos h1]
            rw [show lookupPos pos c.start_city = .ok qs by unfold lookupPos; rw [hqs]]
            rw [show lookupPos pos c.end_city = .ok qe by unfold lookupPos; rw [hqe]]
            exact ⟨_, _, rfl⟩
          · rw [if_neg h1]
            by_cases h2 : cum0 + tf ≤ f ∧ f < cum0 + tf + stopFramesOf sd
            · rw [if_pos h2]
              rw [show lookupPos pos c.end_city = .ok qe by unfold lookupPos; rw [hqe]]
              exact ⟨_, _, rfl⟩
            · rw [if_neg h2]
              exact ih sds (cum0 + tf + stopFramesOf sd) f (by simpa using hlen)
                fun x hx => hp x (by simp [hx])

/-! ### Fixture evaluations -/

theorem mk_netAB : mkVisualizer netAB 1 = .ok visAB := by
  simp [mkVisualizer, calculate_frames_and_stops, netAB, visAB, cityA, cityB,
        normalizeDefault, normalize_coordinates]
  norm_num

theorem mk_netAB7 : mkVisualizer netAB7 1 = .ok visAB7 := by
  simp [mkVisualizer, calculate_frames_and_stops, netAB7, visAB7, cityA, cityB,
        normalizeDefault, normalize_coordinates]
  norm_num

theorem mk_netC3 : mkVisualizer netC3 1 = .ok visC3 := by
  simp [mkVisualizer, calculate_frames_and_stops, netC3, visC3]
  norm_num

theorem stopFramesOf_fifth : stopFramesOf (1 / 5 : ℚ) = 2 := by
  unfold stopFramesOf pyInt
  rw [if_neg (by norm_num)]
  norm_num [Int.floor_eq_iff]

/-- With all referenced cities present, `update` cannot fail. -/
theorem update_total {v : RailNetworkVisualizer} (f : ℤ)
    (hlen : v.connections.length ≤ v.stop_durations.length)
    (hp : ∀ c ∈ v.connections, (v.pos.lookup c.start_city).isSome ∧
      (v.pos.lookup c.end_city).isSome) :
    ∃ p w, update v f = .ok (p, w) := by
  obtain ⟨p, inc, hu⟩ :=
    updateLoop_total v.pos (travelFrames v) v.connections v.stop_durations 0 f hlen hp
  exact ⟨p, _, update_eq_of_loop hu⟩

/-- With all referenced cities present, any run of `update` calls
succeeds. -/
theorem runFrames_total :
    ∀ (fs : List ℤ) {v : RailNetworkVisualizer},
      v.connections.length ≤ v.stop_durations.length →
      (∀ c ∈ v.connections, (v.pos.lookup c.start_city).isSome ∧
        (v.pos.lookup c.end_city).isSome) →
      ∃ w, runFrames v fs = .ok w := by
  intro fs
  induction fs with
  | nil => intro v _ _; exact ⟨v, rfl⟩
  | cons f fs ih =>
      intro v hlen hp
      obtain ⟨p, w, hu⟩ := update_total f hlen hp
      obtain ⟨g1, g2, g3, _⟩ := update_fields hu
      obtain ⟨w2, hw2⟩ := ih (v := w) (by rw [g2, g3]; exact hlen)
        (by rw [g1, g2]; exact hp)
      exact ⟨w2, by unfold runFrames; rw [hu]; exact hw2⟩

/-- The marker position after any successful history equals the one the
scan computes from the immutable schedule fields alone. -/
theorem posAt_eq (v : RailNetworkVisualizer) (fs : List ℤ) (f : ℤ)
    (hlen : v.connections.length ≤ v.stop_durations.length)
    (hp : ∀ c ∈ v.connections, (v.pos.lookup c.start_city).isSome ∧
      (v.pos.lookup c.end_city).isSome) :
    posAt v fs f
      = (updateLoop v.pos (travelFrames v) f v.connections
          v.stop_durations 0).map Prod.fst := by
  obtain ⟨w, hw⟩ := runFrames_total fs hlen hp
  obtain ⟨g1, g2, g3, g4⟩ := runFrames_fields hw
  have htf : travelFrames w = travelFrames v := by
    unfold travelFrames travelFramesOf; rw [g2, g4]
  simp only [posAt, hw]
  simp only [update, g1, g2, g3, htf]
  rcases hu : updateLoop v.pos (travelFrames v) f v.connections v.stop_durations 0
    with e | ⟨p, inc⟩ <;> simp [hu, Except.map]

/-! ### The claims -/

/-- Claim C8: with bounds `min_x < max_x`, `min_y < max_y`, coordinate
normalization is a bijection between the bounding box and `[-1,1]×[-1,1]`:
the inverse linear map undoes it everywhere (in particular on the box
corners), the corners land on the corners of `[-1,1]×[-1,1]`, and with the
default bounds the box midpoint maps exactly to `(0,0)`. -/
theorem c8_normalize_bijective (min_x max_x min_y max_y : ℚ)
    (hx : min_x < max_x) (hy : min_y < max_y) :
    (∀ c : City,
        denormalize (normalize_coordinates c min_x max_x min_y max_y)
          min_x max_x min_y max_y = c.coordinates) ∧
    (∀ (nm : String) (p : ℚ × ℚ),
        normalize_coordinates ⟨nm, denormalize p min_x max_x min_y max_y⟩
          min_x max_x min_y max_y = p) ∧
    (∀ nm : String,
        normalize_coordinates ⟨nm, (min_x, min_y)⟩ min_x max_x min_y max_y
            = (-1, -1) ∧
        normalize_coordinates ⟨nm, (max_x, max_y)⟩ min_x max_x min_y max_y
            = (1, 1) ∧
        normalize_coordinates ⟨nm, (min_x, max_y)⟩ min_x max_x min_y max_y
            = (-1, 1) ∧
        normalize_coordinates ⟨nm, (max_x, min_y)⟩ min_x max_x min_y max_y
            = (1, -1)) ∧
    (∀ nm : String,
        normalizeDefault ⟨nm, ((8 + 13) / 2, (54 + 58) / 2)⟩ = (0, 0)) := by
  have hx' : max_x - min_x ≠ 0 := sub_ne_zero.mpr hx.ne'
  have hy' : max_y - min_y ≠ 0 := sub_ne_zero.mpr hy.ne'
  refine ⟨fun c => ?_, fun nm p => ?_, fun nm => ⟨?_, ?_, ?_, ?_⟩, fun nm => ?_⟩ <;>
  · simp only [normalize_coordinates, denormalize, normalizeDefault, Prod.ext_iff]
    constructor <;> field_simp <;> ring

/-- Witness for C8 at the default bounds. -/
theorem c8_normalize_bijective_witness :
    (∀ c : City,
        denormalize (normalize_coordinates c 8 13 54 58) 8 13 54 58
          = c.coordinates) ∧
    (∀ (nm : String) (p : ℚ × ℚ),
        normalize_coordinates ⟨nm, denormalize p 8 13 54 58⟩ 8 13 54 58 = p) ∧
    (∀ nm : String,
        normalize_coordinates ⟨nm, (8, 54)⟩ 8 13 54 58 = (-1, -1) ∧
        normalize_coordinates ⟨nm, (13, 58)⟩ 8 13 54 58 = (1, 1) ∧
        normalize_coordinates ⟨nm, (8, 58)⟩ 8 13 54 58 = (-1, 1) ∧
        normalize_coordinates ⟨nm, (13, 54)⟩ 8 13 54 58 = (1, -1)) ∧
    (∀ nm : String,
        normalizeDefault ⟨nm, ((8 + 13) / 2, (54 + 58) / 2)⟩ = (0, 0)) :=
  c8_normalize_bijective 8 13 54 58 (by norm_num) (by norm_num)

/-- Claim C5 (code behavior at the failing input): with an empty
connection list, building the timeline stops with `ZeroDivisionError`
raised by `total_stop_time / len(self.rail_network.connections)`
(src/main.py:142) — there is no `InvalidScheduleError` in the source. -/
theorem c5_empty_connections_zero_division :
    calculate_frames_and_stops [] 12 = .error PyErr.zeroDivision ∧
    mkVisualizer ⟨[], []⟩ 12 = .error PyErr.zeroDivision :=
  ⟨rfl, rfl⟩

/-- Claim C2: the total frame count is `D * 10`, and the travel frame
counts of all connections sum to the total frame count minus the
integer-division remainder, which is dropped (nonnegative and smaller
than the connection count). -/
theorem c2_total_frames_and_travel_sum (net : RailNetwork) (D : ℤ)
    (v : RailNetworkVisualizer) (h : mkVisualizer net D = .ok v) :
    v.total_frames = D * 10 ∧
    (v.connections.map fun _ => travelFrames v).sum
      = v.total_frames - v.total_frames % (v.connections.length : ℤ) ∧
    0 ≤ v.total_frames % (v.connections.length : ℤ) ∧
    v.total_frames % (v.connections.length : ℤ) < (v.connections.length : ℤ) := by
  obtain ⟨hN, _, hconn, _, htot, _⟩ := mkVisualizer_ok h
  have hNpos : (0 : ℤ) < (v.connections.length : ℤ) := by
    rw [hconn]; exact_mod_cast hN
  refine ⟨htot, ?_, Int.emod_nonneg _ (ne_of_gt hNpos), Int.emod_lt_of_pos _ hNpos⟩
  have hmap : (v.connections.map fun _ => travelFrames v)
      = List.replicate v.connections.length (travelFrames v) := by
    induction v.connections with
    | nil => rfl
    | cons c cs ihc => simp [List.replicate, ihc]
  rw [hmap, List.sum_replicate, nsmul_eq_mul]
  unfold travelFrames travelFramesOf
  rw [Int.fdiv_eq_ediv _ (le_of_lt hNpos)]
  have := Int.ediv_add_emod v.total_frames (v.connections.length : ℤ)
  omega

/-- Witness for C2 on the two-city fixture with `D = 1`. -/
theorem c2_total_frames_and_travel_sum_witness :
    visAB.total_frames = 1 * 10 ∧
    (visAB.connections.map fun _ => travelFrames visAB).sum
      = visAB.total_frames - visAB.total_frames % (visAB.connections.length : ℤ) ∧
    0 ≤ visAB.total_frames % (visAB.connections.length : ℤ) ∧
    visAB.total_frames % (visAB.connections.length : ℤ)
      < (visAB.connections.length : ℤ) :=
  c2_total_frames_and_travel_sum netAB 1 visAB mk_netAB

/-- Claim C3, counterexample to the `round` part: one connection of 1.3
hours gives `stopDuration = 0.26`; the code's stop-frame-count
`int(0.26 * 10)` is `2`, but `round(0.26 * 10) = 3`. Consequently frame
12 (which a 3-stop-frame schedule would render as a stop at the end
city) matches no connection at all. -/
theorem c3_round_counterexample :
    mkVisualizer netC3 1 = .ok visC3 ∧
    visC3.stop_durations = [13 / 50] ∧
    stopFramesOf (13 / 50) = 2 ∧
    round ((13 / 50 : ℚ) * 10) = 3 ∧
    stopFramesOf (13 / 50) ≠ round ((13 / 50 : ℚ) * 10) ∧
    update visC3 12 = .ok (none, visC3) := by
  have hsf : stopFramesOf (13 / 50) = 2 := by
    unfold stopFramesOf pyInt
    rw [if_neg (by norm_num)]
    norm_num [Int.floor_eq_iff]
  have hround : round ((13 / 50 : ℚ) * 10) = 3 := by
    norm_num [round_eq, Int.floor_eq_iff]
  refine ⟨mk_netC3, rfl, hsf, hround, by rw [hsf, hround]; decide, ?_⟩
  simp [update, updateLoop, visC3, travelFrames, travelFramesOf, hsf, lookupPos]

/-- Claim C3 as amended: each connection's stop duration is
`(Σ durations * 0.2) / N`, the same for every connection, and the
stop-frame-count is the Python `int()` truncation of `stopDuration * 10`
(the floor, for nonnegative stop durations) — not `round`. -/
theorem c3_stop_durations_truncated (net : RailNetwork) (D : ℤ)
    (v : RailNetworkVisualizer) (h : mkVisualizer net D = .ok v) :
    v.stop_durations = List.replicate net.connections.length
      ((net.connections.map Connection.duration).sum * (2 / 10 : ℚ) /
        (net.connections.length : ℚ)) ∧
    ∀ sd ∈ v.stop_durations, 0 ≤ sd → stopFramesOf sd = ⌊sd * 10⌋ := by
  obtain ⟨_, _, _, hstops, _, _⟩ := mkVisualizer_ok h
  refine ⟨hstops, fun sd _ hsd => ?_⟩
  unfold stopFramesOf pyInt
  rw [if_neg (not_lt.mpr (by positivity))]

/-- Witness for the amended C3 on the 1.3-hour fixture. -/
theorem c3_stop_durations_truncated_witness :
    visC3.stop_durations = List.replicate netC3.connections.length
      ((netC3.connections.map Connection.duration).sum * (2 / 10 : ℚ) /
        (netC3.connections.length : ℚ)) ∧
    ∀ sd ∈ visC3.stop_durations, 0 ≤ sd → stopFramesOf sd = ⌊sd * 10⌋ :=
  c3_stop_durations_truncated netC3 1 visC3 mk_netC3

/-- Claim C4: every connection's travel frame count is
`totalFrames // N` (Python floor division) — the same for every
connection, and unchanged when the connections' durations change (only
their number matters). -/
theorem c4_travel_frames_equal_split (net net2 : RailNetwork) (D : ℤ)
    (v v2 : RailNetworkVisualizer)
    (h : mkVisualizer net D = .ok v) (h2 : mkVisualizer net2 D = .ok v2)
    (hn : net2.connections.length = net.connections.length) :
    (∀ t ∈ v.connections.map fun _ => travelFrames v,
        t = Int.fdiv (D * 10) (net.connections.length : ℤ)) ∧
    travelFrames v2 = travelFrames v := by
  obtain ⟨_, _, hconn, _, htot, _⟩ := mkVisualizer_ok h
  obtain ⟨_, _, hconn2, _, htot2, _⟩ := mkVisualizer_ok h2
  constructor
  · intro t ht
    simp only [List.mem_map] at ht
    obtain ⟨c, _, rfl⟩ := ht
    unfold travelFrames travelFramesOf
    rw [htot, hconn]
  · unfold travelFrames travelFramesOf
    rw [htot, htot2, hconn, hconn2, hn]

/-- Witness for C4: the 1-hour and the 7-hour fixture networks get the
same travel frame count. -/
theorem c4_travel_frames_equal_split_witness :
    (∀ t ∈ visAB.connections.map fun _ => travelFrames visAB,
        t = Int.fdiv (1 * 10) (netAB.connections.length : ℤ)) ∧
    travelFrames visAB7 = travelFrames visAB :=
  c4_travel_frames_equal_split netAB netAB7 1 visAB visAB7 mk_netAB mk_netAB7 rfl

/-- Claim C1: when frame `f` lies in the travel sub-range of the `k`-th
connection (`cumulative ≤ f < cumulative + travelFrames`, with
`cumulative` the sum of `travelFrames + stopFrames` over the earlier
connections), `update` stops at exactly that connection, plots the linear
interpolation between the normalized start and end city at fraction
`(f - cumulative) / travelFrames`, and advances the clock by
`duration * (1/travelFrames)` hours. -/
theorem c1_travel_frame_interpolation (net : RailNetwork) (D : ℤ)
    (v : RailNetworkVisualizer) (k : ℕ) (f : ℤ) (ck : Connection)
    (ps pe : ℚ × ℚ)
    (h : mkVisualizer net D = .ok v)
    (hD : 0 ≤ D)
    (hdur : ∀ c ∈ net.connections, 0 ≤ c.duration)
    (hk : v.connections[k]? = some ck)
    (hs : lookupPos v.pos ck.start_city = .ok ps)
    (he : lookupPos v.pos ck.end_city = .ok pe)
    (hlo : cumulativeFrames v k ≤ f)
    (hhi : f < cumulativeFrames v k + travelFrames v) :
    update v f = .ok
      (some (ps.1 + (pe.1 - ps.1) * ((f - cumulativeFrames v k : ℤ) : ℚ)
               / (travelFrames v : ℚ),
             ps.2 + (pe.2 - ps.2) * ((f - cumulativeFrames v k : ℤ) : ℚ)
               / (travelFrames v : ℚ)),
       { v with current_time := v.current_time
           + ck.duration * (1 / (travelFrames v : ℚ)) }) := by
  obtain ⟨hN, _, hconn, hstops, htot, _⟩ := mkVisualizer_ok h
  have htf : 0 ≤ travelFrames v := by
    unfold travelFrames travelFramesOf
    exact Int.fdiv_nonneg (by rw [htot]; omega) (by positivity)
  have hsum : 0 ≤ (net.connections.map Connection.duration).sum :=
    List.sum_nonneg fun x hx => by
      obtain ⟨c, hc, rfl⟩ := List.mem_map.mp hx
      exact hdur c hc
  have hnn : ∀ s ∈ v.stop_durations, 0 ≤ s := by
    rw [hstops]
    intro s hsm
    rw [List.eq_of_mem_replicate hsm]
    positivity
  have hlen : v.connections.length = v.stop_durations.length := by
    rw [hconn, hstops, List.length_replicate]
  have hcum : cumulativeFrames v k
      = blockSum (travelFrames v) (v.stop_durations.take k) := rfl
  have hloop := updateLoop_travel v.pos htf v.connections v.stop_durations k 0 f
    ck ps pe hlen hnn hk hs he
    (by rw [zero_add, ← hcum]; exact hlo) (by rw [zero_add, ← hcum]; exact hhi)
  rw [show (0 : ℤ) + blockSum (travelFrames v) (v.stop_durations.take k)
        = cumulativeFrames v k from by rw [zero_add, hcum]] at hloop
  exact update_eq_of_loop hloop

/-- Witness for C1: on the two-city fixture (`A` at the box minimum
normalized to `(-1,-1)`, `B` at the box maximum normalized to `(1,1)`),
frame 3 of the single connection's 10-frame travel range. -/
theorem c1_travel_frame_interpolation_witness :
    update visAB 3 = .ok
      (some ((-1 : ℚ) + (1 - (-1 : ℚ)) * ((3 - cumulativeFrames visAB 0 : ℤ) : ℚ)
               / (travelFrames visAB : ℚ),
             (-1 : ℚ) + (1 - (-1 : ℚ)) * ((3 - cumulativeFrames visAB 0 : ℤ) : ℚ)
               / (travelFrames visAB : ℚ)),
       { visAB with current_time := visAB.current_time
           + (1 : ℚ) * (1 / (travelFrames visAB : ℚ)) }) :=
  c1_travel_frame_interpolation netAB 1 visAB 0 3 ⟨"A", "B", 1⟩
    ((-1 : ℚ), (-1 : ℚ)) ((1 : ℚ), (1 : ℚ)) mk_netAB (by norm_num)
    (by
      intro c hc
      rw [show netAB.connections = [(⟨"A", "B", 1⟩ : Connection)] from rfl] at hc
      rw [List.mem_singleton.mp hc]
      norm_num)
    rfl rfl rfl
    (by rw [show cumulativeFrames visAB 0 = 0 from rfl]; norm_num)
    (by rw [show cumulativeFrames visAB 0 = 0 from rfl,
            show travelFrames visAB = 10 from rfl]; norm_num)

/-- Claim C6: the simulated clock starts at 06:00 and, with positive
connection durations, no `update` call along any run ever decreases it. -/
theorem c6_clock_starts_0600_monotone (net : RailNetwork) (D : ℤ)
    (v : RailNetworkVisualizer)
    (h : mkVisualizer net D = .ok v)
    (hdur : ∀ c ∈ net.connections, 0 < c.duration) :
    v.current_time = 6 ∧
    ∀ fs w, runFrames v fs = .ok w →
      ∀ f p w', update w f = .ok (p, w') →
        w.current_time ≤ w'.current_time := by
  obtain ⟨hN, _, hconn, hstops, _, hclock⟩ := mkVisualizer_ok h
  refine ⟨hclock, fun fs w hrun f p w' hupd => ?_⟩
  obtain ⟨hwpos, hwconn, hwstops, _⟩ := runFrames_fields hrun
  obtain ⟨inc, hloop, hv'⟩ := update_ok hupd
  have hsum : 0 ≤ (net.connections.map Connection.duration).sum :=
    List.sum_nonneg fun x hx => by
      obtain ⟨c, hc, rfl⟩ := List.mem_map.mp hx
      exact (hdur c hc).le
  have hnn : ∀ s ∈ w.stop_durations, 0 ≤ s := by
    rw [hwstops, hstops]
    intro s hsm
    rw [List.eq_of_mem_replicate hsm]
    positivity
  have hd : ∀ c ∈ w.connections, 0 ≤ c.duration := by
    rw [hwconn, hconn]
    exact fun c hc => (hdur c hc).le
  have hinc := updateLoop_inc_nonneg w.pos (travelFrames w) w.connections
    w.stop_durations 0 f p inc hd hnn hloop
  rw [hv']
  simp only
  linarith

/-- Witness for C6 on the two-city fixture. -/
theorem c6_clock_starts_0600_monotone_witness :
    visAB.current_time = 6 ∧
    ∀ fs w, runFrames visAB fs = .ok w →
      ∀ f p w', update w f = .ok (p, w') →
        w.current_time ≤ w'.current_time :=
  c6_clock_starts_0600_monotone netAB 1 visAB mk_netAB
    (by
      intro c hc
      rw [show netAB.connections = [(⟨"A", "B", 1⟩ : Connection)] from rfl] at hc
      rw [List.mem_singleton.mp hc]
      norm_num)

/-- Claim C7: a frame at or past the cumulative extent of all connection
blocks matches no connection: no marker position is produced and the
state — in particular the simulated clock — is returned unchanged. -/
theorem c7_out_of_range_frame_no_effect (net : RailNetwork) (D : ℤ)
    (v : RailNetworkVisualizer) (f : ℤ)
    (h : mkVisualizer net D = .ok v) (hD : 0 ≤ D)
    (hdur : ∀ c ∈ net.connections, 0 ≤ c.duration)
    (hf : blockSum (travelFrames v) v.stop_durations ≤ f) :
    update v f = .ok (none, v) := by
  obtain ⟨hN, _, hconn, hstops, htot, _⟩ := mkVisualizer_ok h
  have htf : 0 ≤ travelFrames v := by
    unfold travelFrames travelFramesOf
    exact Int.fdiv_nonneg (by rw [htot]; omega) (by positivity)
  have hsum : 0 ≤ (net.connections.map Connection.duration).sum :=
    List.sum_nonneg fun x hx => by
      obtain ⟨c, hc, rfl⟩ := List.mem_map.mp hx
      exact hdur c hc
  have hnn : ∀ s ∈ v.stop_durations, 0 ≤ s := by
    rw [hstops]
    intro s hsm
    rw [List.eq_of_mem_replicate hsm]
    positivity
  have hlen : v.connections.length = v.stop_durations.length := by
    rw [hconn, hstops, List.length_replicate]
  have hloop := updateLoop_out_of_range v.pos htf v.connections v.stop_durations 0 f
    hlen hnn (by rw [zero_add]; exact hf)
  have := update_eq_of_loop hloop
  rw [show ({ v with current_time := v.current_time + 0 } : RailNetworkVisualizer)
        = v from by cases v; simp] at this
  exact this

/-- Witness for C7: frame 12 is past the fixture's 10 travel + 2 stop
frames. -/
theorem c7_out_of_range_frame_no_effect_witness :
    update visAB 12 = .ok (none, visAB) :=
  c7_out_of_range_frame_no_effect netAB 1 visAB 12 mk_netAB (by norm_num)
    (by
      intro c hc
      rw [show netAB.connections = [(⟨"A", "B", 1⟩ : Connection)] from rfl] at hc
      rw [List.mem_singleton.mp hc]
      norm_num)
    (by
      rw [show visAB.stop_durations = [1 / 5] from rfl,
          show travelFrames visAB = 10 from rfl]
      simp only [blockSum, add_zero, stopFramesOf_fifth]
      norm_num)

/-- Claim C10: with all connection endpoints declared, the marker
position `update` computes for a frame `f` is a function of `f` and the
fixed schedule alone — any two histories of prior `update` calls lead to
the same position (while the clock accumulates). -/
theorem c10_position_history_independent (net : RailNetwork) (D : ℤ)
    (v : RailNetworkVisualizer)
    (h : mkVisualizer net D = .ok v)
    (hp : ∀ c ∈ net.connections, (v.pos.lookup c.start_city).isSome ∧
      (v.pos.lookup c.end_city).isSome) :
    ∀ fs1 fs2 f, posAt v fs1 f = posAt v fs2 f := by
  obtain ⟨hN, _, hconn, hstops, _, _⟩ := mkVisualizer_ok h
  have hlen : v.connections.length ≤ v.stop_durations.length := by
    rw [hconn, hstops, List.length_replicate]
  have hp' : ∀ c ∈ v.connections, (v.pos.lookup c.start_city).isSome ∧
      (v.pos.lookup c.end_city).isSome := by
    rw [hconn]; exact hp
  intro fs1 fs2 f
  rw [posAt_eq v fs1 f hlen hp', posAt_eq v fs2 f hlen hp']

/-- Witness for C10 on the two-city fixture: frame 5's marker position is
the same after the empty history and after the history `[3, 7, 11]`. -/
theorem c10_position_history_independent_witness :
    posAt visAB [] 5 = posAt visAB [3, 7, 11] 5 :=
  c10_position_history_independent netAB 1 visAB mk_netAB
    (by
      intro c hc
      rw [show netAB.connections = [(⟨"A", "B", 1⟩ : Connection)] from rfl] at hc
      rw [List.mem_singleton.mp hc]
      exact ⟨rfl, rfl⟩)
    [] [3, 7, 11] 5

/-! ### Graph construction lemmas -/

theorem dictInsert_append {α : Type} :
    ∀ (l : List (String × α)) (k : String) (v : α),
      k ∉ l.map Prod.fst → dictInsert l k v = l ++ [(k, v)] := by
  intro l
  induction l with
  | nil => intro k v _; rfl
  | cons p rest ih =>
      intro k v hk
      obtain ⟨k', v'⟩ := p
      simp only [List.map_cons, List.mem_cons, not_or] at hk
      unfold dictInsert
      rw [if_neg (fun hc => hk.1 hc.symm)]
      rw [ih k v hk.2]
      rfl

theorem foldl_add_city_connections :
    ∀ (cs : List City) (n : RailNetwork),
      (cs.foldl add_city n).connections = n.connections := by
  intro cs
  induction cs with
  | nil => intro n; rfl
  | cons c cs ih => intro n; rw [List.foldl_cons, ih]; rfl

theorem foldl_add_city_cities :
    ∀ (cs : List City) (n : RailNetwork),
      (cs.map City.name).Nodup →
      (∀ c ∈ cs, c.name ∉ n.cities.map Prod.fst) →
      (cs.foldl add_city n).cities = n.cities ++ cs.map fun c => (c.name, c) := by
  intro cs
  induction cs with
  | nil => intro n _ _; simp
  | cons c cs ih =>
      intro n hnd hfresh
      simp only [List.map_cons, List.nodup_cons] at hnd
      obtain ⟨hc1, hc2⟩ := hnd
      rw [List.foldl_cons]
      have hc : add_city n c
          = { n with cities := n.cities ++ [(c.name, c)] } := by
        unfold add_city
        rw [dictInsert_append n.cities c.name c (hfresh c (by simp))]
      rw [hc]
      rw [ih _ hc2
        (by
          intro x hx
          simp only [List.map_append, List.map_cons, List.map_nil,
            List.mem_append, List.mem_singleton, not_or]
          refine ⟨hfresh x (by simp [hx]), ?_⟩
          intro hxc
          exact hc1 (hxc ▸ List.mem_map_of_mem City.name hx))]
      simp

theorem foldl_add_connection_spec :
    ∀ (conns : List Connection) (n : RailNetwork),
      (conns.foldl add_connection n).connections = n.connections ++ conns ∧
      (conns.foldl add_connection n).cities = n.cities := by
  intro conns
  induction conns with
  | nil => intro n; exact ⟨by simp, rfl⟩
  | cons c cs ih =>
      intro n
      rw [List.foldl_cons]
      obtain ⟨h1, h2⟩ := ih (add_connection n c)
      refine ⟨?_, h2⟩
      rw [h1]
      simp [add_connection]

/-- A freshly loaded network holds exactly the declared cities (keyed by
their names) and the declared connections, in order. -/
theorem load_from_json_spec (cities : List City) (conns : List Connection)
    (hnodup : (cities.map City.name).Nodup) :
    (load_from_json ⟨[], []⟩ cities conns).cities
        = (cities.map fun c => (c.name, c)) ∧
    (load_from_json ⟨[], []⟩ cities conns).connections = conns := by
  unfold load_from_json
  obtain ⟨h1, h2⟩ := foldl_add_connection_spec conns (cities.foldl add_city ⟨[], []⟩)
  constructor
  · rw [h2, foldl_add_city_cities cities ⟨[], []⟩ hnodup (by simp)]
    rfl
  · rw [h1, foldl_add_city_connections]
    rfl

theorem add_node_edges (g : NXGraph) (n : String) :
    (add_node g n).edges = g.edges := by
  unfold add_node
  split <;> rfl

theorem add_node_of_mem {g : NXGraph} {n : String} (h : n ∈ g.nodes) :
    add_node g n = g := by
  unfold add_node
  rw [if_pos h]

theorem foldl_add_node_spec :
    ∀ (names : List String) (g : NXGraph),
      names.Nodup → (∀ n ∈ names, n ∉ g.nodes) →
      (names.foldl add_node g).nodes = g.nodes ++ names ∧
      (names.foldl add_node g).edges = g.edges := by
  intro names
  induction names with
  | nil => intro g _ _; exact ⟨by simp, rfl⟩
  | cons nm rest ih =>
      intro g hnd hfresh
      rw [List.foldl_cons]
      have hstep : add_node g nm = { g with nodes := g.nodes ++ [nm] } := by
        unfold add_node
        rw [if_neg (hfresh nm (by simp))]
      rw [hstep]
      obtain ⟨h1, h2⟩ := ih { g with nodes := g.nodes ++ [nm] }
        (List.nodup_cons.mp hnd).2
        (by
          intro x hx
          simp only [List.mem_append, List.mem_singleton, not_or]
          exact ⟨hfresh x (by simp [hx]),
            fun hxm => (List.nodup_cons.mp hnd).1 (hxm ▸ hx)⟩)
      refine ⟨?_, h2⟩
      rw [h1]
      simp

theorem add_edge_of_mem {g : NXGraph} {u v : String} (w : ℚ)
    (hu : u ∈ g.nodes) (hv : v ∈ g.nodes) :
    add_edge g u v w = { g with edges := insertEdge g.edges (Sym2.mk (u, v)) w } := by
  unfold add_edge
  rw [add_node_of_mem hu, add_node_of_mem hv]

theorem insertEdge_keys :
    ∀ (es : List (Sym2 String × ℚ)) (k : Sym2 String) (w : ℚ),
      ((insertEdge es k w).map Prod.fst).toFinset
        = insert k (es.map Prod.fst).toFinset := by
  intro es
  induction es with
  | nil => intro k w; simp [insertEdge]
  | cons p rest ih =>
      intro k w
      obtain ⟨k', w'⟩ := p
      unfold insertEdge
      by_cases hk : k' = k
      · rw [if_pos hk]
        subst hk
        simp
      · rw [if_neg hk]
        simp only [List.map_cons, List.toFinset_cons, ih]
        rw [Finset.Insert.comm]

theorem foldl_add_edge_spec :
    ∀ (conns : List Connection) (g : NXGraph),
      (∀ c ∈ conns, c.start_city ∈ g.nodes ∧ c.end_city ∈ g.nodes) →
      ((conns.foldl (fun g c => add_edge g c.start_city c.end_city c.duration) g).nodes
          = g.nodes) ∧
      (((conns.foldl (fun g c => add_edge g c.start_city c.end_city c.duration)
            g).edges.map Prod.fst).toFinset
          = (g.edges.map Prod.fst).toFinset ∪
            (conns.map fun c => Sym2.mk (c.start_city, c.end_city)).toFinset) := by
  intro conns
  induction conns with
  | nil => intro g _; exact ⟨rfl, by simp⟩
  | cons c cs ih =>
      intro g hend
      rw [List.foldl_cons]
      obtain ⟨hu, hv⟩ := hend c (by simp)
      rw [add_edge_of_mem c.duration hu hv]
      obtain ⟨h1, h2⟩ := ih
        { g with edges := insertEdge g.edges (Sym2.mk (c.start_city, c.end_city)) c.duration }
        (fun x hx => hend x (by simp [hx]))
      refine ⟨h1, ?_⟩
      rw [h2]
      simp only [insertEdge_keys, List.map_cons, List.toFinset_cons]
      rw [Finset.insert_union, Finset.union_insert]

/-- Running `build_graph` on a loaded network with unique city names and declared
endpoints: the node list is exactly the city names, and the edge keys are
the connections' unordered endpoint pairs. -/
theorem build_graph_spec (cities : List City) (conns : List Connection)
    (hnodup : (cities.map City.name).Nodup)
    (hend : ∀ c ∈ conns, c.start_city ∈ cities.map City.name ∧
      c.end_city ∈ cities.map City.name) :
    (build_graph (load_from_json ⟨[], []⟩ cities conns)).nodes
        = cities.map City.name ∧
    ((build_graph (load_from_json ⟨[], []⟩ cities conns)).edges.map Prod.fst).toFinset
        = (conns.map fun c => Sym2.mk (c.start_city, c.end_city)).toFinset := by
  obtain ⟨hcit, hcon⟩ := load_from_json_spec cities conns hnodup
  unfold build_graph
  rw [hcit, hcon]
  have hfold : ((cities.map fun c => (c.name, c)).foldl
        (fun g p => add_node g p.2.name) (⟨[], []⟩ : NXGraph))
      = (cities.map City.name).foldl add_node (⟨[], []⟩ : NXGraph) := by
    rw [← List.foldl_map, List.map_map]
    rfl
  rw [hfold]
  obtain ⟨hn, he⟩ := foldl_add_node_spec (cities.map City.name) ⟨[], []⟩ hnodup
    (by simp)
  obtain ⟨gn, ge⟩ := foldl_add_edge_spec conns
    ((cities.map City.name).foldl add_node ⟨[], []⟩)
    (by
      intro c hc
      rw [hn]
      simpa using hend c hc)
  refine ⟨by rw [gn, hn]; rfl, ?_⟩
  rw [ge, he]
  simp

/-! ### Claim C9 -/

/-- Claim C9, counterexample to the node-count part: a network loaded
from a description with one city `A` and one connection `A → B` (an
undeclared endpoint, which `load_from_json` accepts unchecked) yields a
graph with two nodes, because `networkx`'s `add_edge` silently adds the
missing endpoint. -/
theorem c9_undeclared_endpoint_counterexample :
    (load_from_json ⟨[], []⟩ [⟨"A", (0, 0)⟩] [⟨"A", "B", 1⟩]).cities.length = 1 ∧
    (build_graph (load_from_json ⟨[], []⟩ [⟨"A", (0, 0)⟩] [⟨"A", "B", 1⟩])).nodes
        = ["A", "B"] ∧
    (build_graph (load_from_json ⟨[], []⟩ [⟨"A", (0, 0)⟩] [⟨"A", "B", 1⟩])).nodes.length
        ≠ 1 :=
  ⟨rfl, rfl, by decide⟩

/-- Claim C9 as amended: for a network loaded from a description with `N`
uniquely named cities **whose connection endpoints are all declared
cities**, the derived graph has exactly the `N` city names as nodes, and
its edge-key set is the set of declared endpoint pairs, deduplicated by
unordered pair and independent of connection order. -/
theorem c9_graph_roundtrip (cities : List City) (conns : List Connection)
    (hnodup : (cities.map City.name).Nodup)
    (hend : ∀ c ∈ conns, c.start_city ∈ cities.map City.name ∧
      c.end_city ∈ cities.map City.name) :
    (build_graph (load_from_json ⟨[], []⟩ cities conns)).nodes
        = cities.map City.name ∧
    (build_graph (load_from_json ⟨[], []⟩ cities conns)).nodes.length
        = cities.length ∧
    ((build_graph (load_from_json ⟨[], []⟩ cities conns)).edges.map Prod.fst).toFinset
        = (conns.map fun c => Sym2.mk (c.start_city, c.end_city)).toFinset ∧
    ∀ conns2 : List Connection, conns2.Perm conns →
      ((build_graph (load_from_json ⟨[], []⟩ cities conns2)).edges.map
          Prod.fst).toFinset
        = ((build_graph (load_from_json ⟨[], []⟩ cities conns)).edges.map
            Prod.fst).toFinset := by
  obtain ⟨h1, h2⟩ := build_graph_spec cities conns hnodup hend
  refine ⟨h1, by rw [h1, List.length_map], h2, fun conns2 hperm => ?_⟩
  obtain ⟨_, h2'⟩ := build_graph_spec cities conns2 hnodup
    (fun c hc => hend c (hperm.mem_iff.mp hc))
  rw [h2, h2']
  exact List.toFinset_eq_of_perm _ _ (hperm.map _)

/-- Witness for the amended C9 on the two-city fixture. -/
theorem c9_graph_roundtrip_witness :
    (build_graph (load_from_json ⟨[], []⟩ [cityA, cityB] [⟨"A", "B", 1⟩])).nodes
        = [cityA, cityB].map City.name ∧
    (build_graph (load_from_json ⟨[], []⟩ [cityA, cityB] [⟨"A", "B", 1⟩])).nodes.length
        = [cityA, cityB].length ∧
    ((build_graph (load_from_json ⟨[], []⟩ [cityA, cityB]
        [⟨"A", "B", 1⟩])).edges.map Prod.fst).toFinset
        = ([(⟨"A", "B", 1⟩ : Connection)].map fun c =>
            Sym2.mk (c.start_city, c.end_city)).toFinset ∧
    ∀ conns2 : List Connection, conns2.Perm [⟨"A", "B", 1⟩] →
      ((build_graph (load_from_json ⟨[], []⟩ [cityA, cityB] conns2)).edges.map
          Prod.fst).toFinset
        = ((build_graph (load_from_json ⟨[], []⟩ [cityA, cityB]
            [⟨"A", "B", 1⟩])).edges.map Prod.fst).toFinset :=
  c9_graph_roundtrip [cityA, cityB] [⟨"A", "B", 1⟩] (by decide) (by decide)

end RailViz
